import Mathlib

/-!
Shallow embedding of `zerver/views/digest.py` (Zulip digest-email feature):
the conversation-ranking routine `gather_hot_conversations`, the traffic
gate `enough_traffic`, and the context builder `build_digest`.

Modelling conventions:
- A Django queryset of user-messages, already ordered by publication date,
  is modelled as a `List Message` in that order; queryset `.filter` becomes
  `List.filter`, slicing `[:n]` becomes `List.take n`.
- The Python `defaultdict(int)` / `defaultdict(set)` pair keyed by
  `(stream id, topic)` is modelled as `ConvMaps`: an insertion-ordered key
  list shared by both dicts (both are first written for a key on the same
  message) together with total lookup functions defaulting to `0` / `[]`,
  matching `defaultdict` semantics. The Python `set` of sender names is
  modelled as a duplicate-free list in first-insertion order; only its
  cardinality and membership are ever used.
- Python's `list.sort(key=f, reverse=True)` is a stable descending sort; it
  is modelled by `List.insertionSort r` with `r a b := f b ≤ f a`, which is
  stable with exactly the same tie-breaking (earlier element first).
- Python `int` is modelled as `Int` (arbitrary-precision, signed), `str`
  truthiness as `≠ ""`, `int` truthiness as `≠ 0`.
-/

namespace ZulipDigest

/-- A conversation key: `(message.recipient.type_id, message.subject)`. -/
abbrev ConvKey := Nat × String

/-- The three recipient types of `zerver.models.Recipient`
(`PERSONAL`, `STREAM`, `HUDDLE`). -/
inductive RecipientType where
  | personal
  | stream
  | huddle
deriving DecidableEq

/-- The fields of a user-message row (with its joined message, sender and
recipient) that `digest.py` reads. -/
structure Message where
  senderId : Nat
  senderFullName : String
  sentByHuman : Bool
  recipientType : RecipientType
  recipientTypeId : Nat
  subject : String
deriving DecidableEq

/-- The grouping key used at digest.py:147-148. -/
def msgKey (m : Message) : ConvKey := (m.recipientTypeId, m.subject)

/-- State of the two `defaultdict`s built at digest.py:140-151:
`keys` is the shared insertion-ordered key list (Python dicts preserve
insertion order), `conversation_length` the per-key message count, and
`conversation_diversity` the per-key distinct sender names. -/
structure ConvMaps where
  keys : List ConvKey
  conversation_length : ConvKey → Nat
  conversation_diversity : ConvKey → List String

/-- Both `defaultdict`s start empty. -/
def emptyConvMaps : ConvMaps :=
  { keys := [], conversation_length := fun _ => 0, conversation_diversity := fun _ => [] }

/-- `set.add` on the sender-name set, modelled on a duplicate-free list. -/
def addToSet (s : String) (l : List String) : List String :=
  if s ∈ l then l else l ++ [s]

/-- One iteration of the loop at digest.py:142-151: skip non-human
messages, otherwise record the sender and bump the count for the key. -/
def processMessage (maps : ConvMaps) (m : Message) : ConvMaps :=
  if m.sentByHuman then
    { keys := if msgKey m ∈ maps.keys then maps.keys else maps.keys ++ [msgKey m]
      conversation_length := fun k =>
        if k = msgKey m then maps.conversation_length k + 1 else maps.conversation_length k
      conversation_diversity := fun k =>
        if k = msgKey m then addToSet m.senderFullName (maps.conversation_diversity k)
        else maps.conversation_diversity k }
  else maps

/-- The whole grouping loop at digest.py:142-151. -/
def buildConvMaps (msgs : List Message) : ConvMaps :=
  msgs.foldl processMessage emptyConvMaps

/-- Sort relation of digest.py:154: descending by number of distinct
senders; `r a b` means `a` may come before `b`. -/
def diversityRel (maps : ConvMaps) : ConvKey → ConvKey → Prop :=
  fun a b =>
    (maps.conversation_diversity b).length ≤ (maps.conversation_diversity a).length

/-- Sort relation of digest.py:157: descending by message count. -/
def lengthRel (maps : ConvMaps) : ConvKey → ConvKey → Prop :=
  fun a b => maps.conversation_length b ≤ maps.conversation_length a

instance (maps : ConvMaps) : DecidableRel (diversityRel maps) :=
  fun a b =>
    decidable_of_iff
      ((maps.conversation_diversity b).length ≤ (maps.conversation_diversity a).length)
      Iff.rfl

instance (maps : ConvMaps) : DecidableRel (lengthRel maps) :=
  fun a b =>
    decidable_of_iff (maps.conversation_length b ≤ maps.conversation_length a) Iff.rfl

instance (maps : ConvMaps) : IsTotal ConvKey (diversityRel maps) :=
  ⟨fun _ _ => Nat.le_total _ _⟩

instance (maps : ConvMaps) : IsTrans ConvKey (diversityRel maps) :=
  ⟨fun _ _ _ h1 h2 => Nat.le_trans h2 h1⟩

instance (maps : ConvMaps) : IsTotal ConvKey (lengthRel maps) :=
  ⟨fun _ _ => Nat.le_total _ _⟩

instance (maps : ConvMaps) : IsTrans ConvKey (lengthRel maps) :=
  ⟨fun _ _ _ h1 h2 => Nat.le_trans h2 h1⟩

/-- The selection loop at digest.py:161-166: starting from the two best
diversity keys, append length-ranked candidates not already chosen,
stopping as soon as 4 conversations are selected. -/
def selectLoop : List ConvKey → List ConvKey → List ConvKey
  | hot, [] => hot
  | hot, candidate :: rest =>
    let hot2 := if candidate ∈ hot then hot else hot ++ [candidate]
    if 4 ≤ hot2.length then hot2 else selectLoop hot2 rest

/-- `diversity_list` (digest.py:153-154): the conversation keys sorted
stably by distinct-sender count, descending. Sorting the keys of the
`(key, value)` items is the same as sorting the items, since the sort key
`len(entry[1])` depends only on the dict key. -/
def diversity_list (msgs : List Message) : List ConvKey :=
  List.insertionSort (diversityRel (buildConvMaps msgs)) (buildConvMaps msgs).keys

/-- `length_list` (digest.py:156-157): the conversation keys sorted stably
by message count, descending. -/
def length_list (msgs : List Message) : List ConvKey :=
  List.insertionSort (lengthRel (buildConvMaps msgs)) (buildConvMaps msgs).keys

/-- The state of `hot_conversations` after the loop at digest.py:161-166. -/
def selectedKeys (msgs : List Message) : List ConvKey :=
  selectLoop ((diversity_list msgs).take 2) (length_list msgs)

/-- The `hot_conversations` key list built at digest.py:153-173: the two
diversity winners, then length winners up to 4 total, then (if still short)
the padding step `diversity_list[num_convos:4]`. -/
def hot_conversation_keys (msgs : List Message) : List ConvKey :=
  let hot := selectedKeys msgs
  if hot.length < 4 then
    hot ++ ((diversity_list msgs).drop hot.length).take (4 - hot.length)
  else hot

/-- One rendered conversation teaser (digest.py:187-190). `count` is a
Python `int` and may in principle be negative, hence `Int`. The external
`build_message_list` renderer is out of scope; the raw previewed messages
are kept instead. -/
structure Teaser where
  participants : List String
  count : Int
  first_few_messages : List Message
deriving DecidableEq

/-- The queryset filter at digest.py:183-185: all messages of the
conversation, by recipient type id and subject. Note it does not exclude
non-human messages. -/
def previewFilter (k : ConvKey) (m : Message) : Bool :=
  m.recipientTypeId == k.1 && m.subject == k.2

/-- The teaser payload built for one selected conversation at
digest.py:176-192: participants, up to 2 preview messages, and the
remainder count `count - len(first_few_messages)`. -/
def makeTeaser (msgs : List Message) (maps : ConvMaps) (h : ConvKey) : Teaser :=
  let first_few := (msgs.filter (previewFilter h)).take 2
  { participants := maps.conversation_diversity h
    count := (maps.conversation_length h : Int) - first_few.length
    first_few_messages := first_few }

/-- `gather_hot_conversations` (digest.py:132-193). -/
def gather_hot_conversations (msgs : List Message) : List Teaser :=
  (hot_conversation_keys msgs).map (makeTeaser msgs (buildConvMaps msgs))

/-- `enough_traffic` (digest.py:229-237). Python truthiness: a `str` is
truthy iff non-empty, an `int` iff non-zero. -/
def enough_traffic (unread_pms : String) (hot_conversations : String)
    (new_streams : Int) (new_users : Int) : Bool :=
  if unread_pms != "" || hot_conversations != "" then true
  else if new_streams != 0 && new_users != 0 then true
  else false

/-- The fields of `UserProfile` that `build_digest` reads. -/
structure UserDigestProfile where
  id : Nat
  long_term_idle : Bool
deriving DecidableEq

/-- The PM filter at digest.py:264-266: not a stream recipient and not
sent by the user themselves. -/
def pmFilter (user : UserDigestProfile) (m : Message) : Bool :=
  !(m.recipientType == RecipientType.stream) && !(m.senderId == user.id)

/-- The stream-message filter at digest.py:281-283: stream recipients
among the user's active in-home-view subscriptions. -/
def streamFilter (homeViewStreamIds : List Nat) (m : Message) : Bool :=
  (m.recipientType == RecipientType.stream) &&
    homeViewStreamIds.contains m.recipientTypeId

/-- The digest template context assembled by `build_digest`
(digest.py:252-300), restricted to the fields this file computes; the
realm-name / unsubscribe-link glue supplied by collaborators is omitted. -/
structure DigestContext where
  unread_pms : List Message
  remaining_unread_pms_count : Int
  hot_conversations : List Teaser
  new_streams_count : Nat
  new_users : List String
deriving DecidableEq

/-- `build_digest` (digest.py:239-300). `all_messages` models the queryset
of the user's messages after the cutoff, ordered by publication date;
the new-stream and new-user buckets come from separate queries and are
passed through. Returns `none` for long-term-idle users (digest.py:242). -/
def build_digest (user : UserDigestProfile) (all_messages : List Message)
    (homeViewStreamIds : List Nat) (new_streams_count : Nat)
    (new_users : List String) : Option DigestContext :=
  if user.long_term_idle then none
  else
    let pms := all_messages.filter (pmFilter user)
    let pms_limit : Nat := 4
    some { unread_pms := pms.take pms_limit
           remaining_unread_pms_count := min 0 ((pms.length : Int) - (pms_limit : Int))
           hot_conversations :=
             gather_hot_conversations (all_messages.filter (streamFilter homeViewStreamIds))
           new_streams_count := new_streams_count
           new_users := new_users }

/-- A human-sent message of conversation `k`: the messages counted into
`conversation_length k` by the grouping loop. -/
def humanKeyMatch (k : ConvKey) (m : Message) : Bool :=
  m.sentByHuman && (msgKey m == k)

/-! ### Concrete example inputs -/

/-- The spec's worked example: conversation A = stream 1 topic "tA"
(5 human messages, 3 distinct senders), B = stream 2 topic "tB"
(3 messages, 1 sender), C = stream 3 topic "tC" (2 messages, 2 senders),
D = stream 4 topic "tD" (1 message, 1 sender), first encountered in the
order A, B, C, D. -/
def ex5 : List Message :=
  [ ⟨0, "a1", true, .stream, 1, "tA"⟩
  , ⟨0, "b1", true, .stream, 2, "tB"⟩
  , ⟨0, "c1", true, .stream, 3, "tC"⟩
  , ⟨0, "d1", true, .stream, 4, "tD"⟩
  , ⟨0, "a2", true, .stream, 1, "tA"⟩
  , ⟨0, "a3", true, .stream, 1, "tA"⟩
  , ⟨0, "a1", true, .stream, 1, "tA"⟩
  , ⟨0, "a1", true, .stream, 1, "tA"⟩
  , ⟨0, "b1", true, .stream, 2, "tB"⟩
  , ⟨0, "b1", true, .stream, 2, "tB"⟩
  , ⟨0, "c2", true, .stream, 3, "tC"⟩ ]

/-- One conversation with a single human message and two automated
messages: the preview query matches all three messages, so the remainder
count is `1 - 2 = -1`. -/
def ex1 : List Message :=
  [ ⟨0, "alice", true, .stream, 7, "topic"⟩
  , ⟨1, "bot", false, .stream, 7, "topic"⟩
  , ⟨1, "bot", false, .stream, 7, "topic"⟩ ]

/-- An input consisting solely of automated messages. -/
def exBots : List Message :=
  [ ⟨1, "bot", false, .stream, 7, "topic"⟩
  , ⟨1, "bot", false, .stream, 8, "other"⟩ ]

/-- An empty rendered bucket, for feeding `enough_traffic`. -/
def emptyBucket : String := ""

/-- A non-idle user receiving a digest. -/
def digestUser : UserDigestProfile := { id := 1, long_term_idle := false }

/-- Six unread personal messages from another sender: more than the
4-message PM preview limit. -/
def pmMessages : List Message :=
  List.replicate 6 ⟨5, "pat", true, .personal, 0, "x"⟩

/-! ### Lemmas about the grouping phase -/

theorem addToSet_length_le (s : String) (l : List String) :
    (addToSet s l).length ≤ l.length + 1 := by
  unfold addToSet
  split
  · exact Nat.le_succ _
  · simp

theorem emptyConvMaps_keys : emptyConvMaps.keys = [] := rfl

theorem emptyConvMaps_length (k : ConvKey) :
    emptyConvMaps.conversation_length k = 0 := rfl

theorem emptyConvMaps_diversity (k : ConvKey) :
    emptyConvMaps.conversation_diversity k = [] := rfl

theorem processMessage_not_human (s : ConvMaps) (m : Message)
    (h : m.sentByHuman = false) : processMessage s m = s := by
  unfold processMessage
  simp [h]

theorem processMessage_keys (s : ConvMaps) (m : Message) :
    (processMessage s m).keys =
      if m.sentByHuman then
        (if msgKey m ∈ s.keys then s.keys else s.keys ++ [msgKey m])
      else s.keys := by
  unfold processMessage
  split <;> rfl

theorem processMessage_length (s : ConvMaps) (m : Message) (k : ConvKey) :
    (processMessage s m).conversation_length k =
      if m.sentByHuman ∧ k = msgKey m then s.conversation_length k + 1
      else s.conversation_length k := by
  unfold processMessage
  by_cases hh : m.sentByHuman <;> by_cases hk : k = msgKey m <;> simp [hh, hk]

theorem processMessage_diversity (s : ConvMaps) (m : Message) (k : ConvKey) :
    (processMessage s m).conversation_diversity k =
      if m.sentByHuman ∧ k = msgKey m then
        addToSet m.senderFullName (s.conversation_diversity k)
      else s.conversation_diversity k := by
  unfold processMessage
  by_cases hh : m.sentByHuman <;> by_cases hk : k = msgKey m <;> simp [hh, hk]

theorem processMessage_mem_keys (s : ConvMaps) (m : Message) (k : ConvKey) :
    k ∈ (processMessage s m).keys ↔
      k ∈ s.keys ∨ (m.sentByHuman = true ∧ msgKey m = k) := by
  rw [processMessage_keys]
  by_cases hh : m.sentByHuman
  · rw [if_pos hh]
    by_cases hmem : msgKey m ∈ s.keys
    · rw [if_pos hmem]
      constructor
      · exact fun h => Or.inl h
      · rintro (h | ⟨_, rfl⟩)
        · exact h
        · exact hmem
    · rw [if_neg hmem]
      constructor
      · intro h
        rcases List.mem_append.mp h with h | h
        · exact Or.inl h
        · exact Or.inr ⟨hh, (List.mem_singleton.mp h).symm⟩
      · rintro (h | ⟨_, rfl⟩)
        · exact List.mem_append.mpr (Or.inl h)
        · exact List.mem_append.mpr (Or.inr (List.mem_singleton.mpr rfl))
  · simp only [Bool.not_eq_true] at hh
    rw [if_neg (by simp [hh])]
    simp [hh]

theorem foldl_processMessage_inv (P : ConvMaps → Prop)
    (hstep : ∀ s m, P s → P (processMessage s m)) :
    ∀ (l : List Message) (s : ConvMaps), P s → P (l.foldl processMessage s)
  | [], _, hs => hs
  | m :: l, s, hs => foldl_processMessage_inv P hstep l _ (hstep s m hs)

theorem keys_nodup (msgs : List Message) : (buildConvMaps msgs).keys.Nodup := by
  refine foldl_processMessage_inv (fun s => s.keys.Nodup) ?_ msgs emptyConvMaps ?_
  · intro s m hs
    rw [processMessage_keys]
    split
    · split
      · exact hs
      · next hmem =>
        exact hs.append (List.nodup_singleton _) (List.disjoint_singleton.2 hmem)
    · exact hs
  · exact List.nodup_nil

theorem diversity_le_length (msgs : List Message) (k : ConvKey) :
    ((buildConvMaps msgs).conversation_diversity k).length ≤
      (buildConvMaps msgs).conversation_length k := by
  refine foldl_processMessage_inv
    (fun s => ∀ k, (s.conversation_diversity k).length ≤ s.conversation_length k)
    ?_ msgs emptyConvMaps ?_ k
  · intro s m hs k
    rw [processMessage_length, processMessage_diversity]
    split
    · exact Nat.le_trans (addToSet_length_le _ _) (Nat.succ_le_succ (hs k))
    · exact hs k
  · intro k
    rw [emptyConvMaps_length, emptyConvMaps_diversity]
    exact Nat.le_refl 0

theorem foldl_processMessage_filter_human :
    ∀ (l : List Message) (s : ConvMaps),
      l.foldl processMessage s = (l.filter (·.sentByHuman)).foldl processMessage s
  | [], _ => rfl
  | m :: l, s => by
    by_cases hh : m.sentByHuman
    · simp only [List.foldl_cons, List.filter_cons, hh]
      exact foldl_processMessage_filter_human l (processMessage s m)
    · simp only [Bool.not_eq_true] at hh
      simp only [List.foldl_cons, List.filter_cons, hh,
        processMessage_not_human s m hh]
      exact foldl_processMessage_filter_human l s

theorem buildConvMaps_filter_human (msgs : List Message) :
    buildConvMaps msgs = buildConvMaps (msgs.filter (·.sentByHuman)) :=
  foldl_processMessage_filter_human msgs emptyConvMaps

theorem foldl_processMessage_mem_keys :
    ∀ (l : List Message) (s : ConvMaps) (k : ConvKey),
      (k ∈ (l.foldl processMessage s).keys ↔
        k ∈ s.keys ∨ ∃ m, m ∈ l ∧ m.sentByHuman = true ∧ msgKey m = k)
  | [], s, k => by simp
  | m :: l, s, k => by
    rw [List.foldl_cons, foldl_processMessage_mem_keys l (processMessage s m) k,
      processMessage_mem_keys]
    constructor
    · rintro ((h | h) | ⟨m', hm', hh', hk'⟩)
      · exact Or.inl h
      · exact Or.inr ⟨m, List.mem_cons_self m l, h.1, h.2⟩
      · exact Or.inr ⟨m', List.mem_cons_of_mem m hm', hh', hk'⟩
    · rintro (h | ⟨m', hm', hh', hk'⟩)
      · exact Or.inl (Or.inl h)
      · rcases List.mem_cons.mp hm' with rfl | hm'
        · exact Or.inl (Or.inr ⟨hh', hk'⟩)
        · exact Or.inr ⟨m', hm', hh', hk'⟩

theorem mem_keys_buildConvMaps (msgs : List Message) (k : ConvKey) :
    k ∈ (buildConvMaps msgs).keys ↔
      ∃ m, m ∈ msgs ∧ m.sentByHuman = true ∧ msgKey m = k := by
  rw [buildConvMaps, foldl_processMessage_mem_keys, emptyConvMaps_keys]
  simp

theorem foldl_processMessage_length_eq :
    ∀ (l : List Message) (s : ConvMaps) (k : ConvKey),
      (l.foldl processMessage s).conversation_length k =
        s.conversation_length k + l.countP (humanKeyMatch k)
  | [], _, _ => by simp
  | m :: l, s, k => by
    rw [List.foldl_cons, foldl_processMessage_length_eq l (processMessage s m) k,
      processMessage_length, List.countP_cons]
    have : (humanKeyMatch k m = true) ↔ (m.sentByHuman ∧ k = msgKey m) := by
      unfold humanKeyMatch
      rw [Bool.and_eq_true, beq_iff_eq]
      exact and_congr Iff.rfl eq_comm
    by_cases hm : m.sentByHuman ∧ k = msgKey m
    · rw [if_pos hm, if_pos (this.mpr hm)]
      omega
    · rw [if_neg hm, if_neg (fun h => hm (this.mp h))]
      omega

theorem conversation_length_eq_countP (msgs : List Message) (k : ConvKey) :
    (buildConvMaps msgs).conversation_length k = msgs.countP (humanKeyMatch k) := by
  rw [buildConvMaps, foldl_processMessage_length_eq, emptyConvMaps_length]
  exact Nat.zero_add _

/-! ### Lemmas about the selection phase -/

theorem selectLoop_append :
    ∀ (cands hot : List ConvKey), ∃ t, selectLoop hot cands = hot ++ t
  | [], hot => ⟨[], by simp [selectLoop]⟩
  | c :: rest, hot => by
    simp only [selectLoop]
    by_cases hmem : c ∈ hot
    · rw [if_pos hmem]
      by_cases h4 : 4 ≤ hot.length
      · rw [if_pos h4]
        exact ⟨[], by simp⟩
      · rw [if_neg h4]
        exact selectLoop_append rest hot
    · rw [if_neg hmem]
      by_cases h4 : 4 ≤ (hot ++ [c]).length
      · rw [if_pos h4]
        exact ⟨[c], rfl⟩
      · rw [if_neg h4]
        obtain ⟨t, ht⟩ := selectLoop_append rest (hot ++ [c])
        exact ⟨[c] ++ t, by rw [ht, List.append_assoc]⟩

theorem selectLoop_subset :
    ∀ (cands hot : List ConvKey) (x : ConvKey),
      x ∈ selectLoop hot cands → x ∈ hot ∨ x ∈ cands
  | [], _, _, hx => Or.inl hx
  | c :: rest, hot, x, hx => by
    simp only [selectLoop] at hx
    by_cases hmem : c ∈ hot
    · rw [if_pos hmem] at hx
      by_cases h4 : 4 ≤ hot.length
      · rw [if_pos h4] at hx
        exact Or.inl hx
      · rw [if_neg h4] at hx
        rcases selectLoop_subset rest hot x hx with h | h
        · exact Or.inl h
        · exact Or.inr (List.mem_cons_of_mem c h)
    · rw [if_neg hmem] at hx
      by_cases h4 : 4 ≤ (hot ++ [c]).length
      · rw [if_pos h4] at hx
        rcases List.mem_append.mp hx with h | h
        · exact Or.inl h
        · exact Or.inr (List.mem_cons.mpr (Or.inl (List.mem_singleton.mp h)))
      · rw [if_neg h4] at hx
        rcases selectLoop_subset rest (hot ++ [c]) x hx with h | h
        · rcases List.mem_append.mp h with h | h
          · exact Or.inl h
          · exact Or.inr (List.mem_cons.mpr (Or.inl (List.mem_singleton.mp h)))
        · exact Or.inr (List.mem_cons_of_mem c h)

theorem selectLoop_length_le :
    ∀ (cands hot : List ConvKey), hot.length ≤ 3 → (selectLoop hot cands).length ≤ 4
  | [], _, h => by
    simp only [selectLoop]
    omega
  | c :: rest, hot, h => by
    simp only [selectLoop]
    by_cases hmem : c ∈ hot
    · rw [if_pos hmem]
      by_cases h4 : 4 ≤ hot.length
      · rw [if_pos h4]
        omega
      · rw [if_neg h4]
        exact selectLoop_length_le rest hot h
    · rw [if_neg hmem]
      by_cases h4 : 4 ≤ (hot ++ [c]).length
      · rw [if_pos h4]
        simp only [List.length_append, List.length_singleton]
        omega
      · rw [if_neg h4]
        apply selectLoop_length_le rest
        simp only [List.length_append, List.length_singleton] at h4 ⊢
        omega

theorem selectLoop_nodup :
    ∀ (cands hot : List ConvKey), hot.Nodup → (selectLoop hot cands).Nodup
  | [], _, h => h
  | c :: rest, hot, h => by
    simp only [selectLoop]
    by_cases hmem : c ∈ hot
    · rw [if_pos hmem]
      by_cases h4 : 4 ≤ hot.length
      · rw [if_pos h4]
        exact h
      · rw [if_neg h4]
        exact selectLoop_nodup rest hot h
    · rw [if_neg hmem]
      have h2 : (hot ++ [c]).Nodup :=
        h.append (List.nodup_singleton c) (List.disjoint_singleton.2 hmem)
      by_cases h4 : 4 ≤ (hot ++ [c]).length
      · rw [if_pos h4]
        exact h2
      · rw [if_neg h4]
        exact selectLoop_nodup rest (hot ++ [c]) h2

theorem selectLoop_mem_of_length_lt :
    ∀ (cands hot : List ConvKey), (selectLoop hot cands).length < 4 →
      ∀ c ∈ cands, c ∈ selectLoop hot cands
  | [], _, _, _, hc => absurd hc (List.not_mem_nil _)
  | c :: rest, hot, hlen, c', hc' => by
    simp only [selectLoop] at hlen ⊢
    by_cases hmem : c ∈ hot
    · rw [if_pos hmem] at hlen ⊢
      by_cases h4 : 4 ≤ hot.length
      · rw [if_pos h4] at hlen
        omega
      · rw [if_neg h4] at hlen ⊢
        rcases List.mem_cons.mp hc' with rfl | hc'
        · obtain ⟨t, ht⟩ := selectLoop_append rest hot
          rw [ht]
          exact List.mem_append.mpr (Or.inl hmem)
        · exact selectLoop_mem_of_length_lt rest hot hlen c' hc'
    · rw [if_neg hmem] at hlen ⊢
      by_cases h4 : 4 ≤ (hot ++ [c]).length
      · rw [if_pos h4] at hlen
        omega
      · rw [if_neg h4] at hlen ⊢
        rcases List.mem_cons.mp hc' with rfl | hc'
        · obtain ⟨t, ht⟩ := selectLoop_append rest (hot ++ [c'])
          rw [ht]
          exact List.mem_append.mpr
            (Or.inl (List.mem_append.mpr (Or.inr (List.mem_singleton.mpr rfl))))
        · exact selectLoop_mem_of_length_lt rest (hot ++ [c]) hlen c' hc'

/-! ### Lemmas about the assembled key list -/

theorem diversity_list_perm (msgs : List Message) :
    (diversity_list msgs).Perm (buildConvMaps msgs).keys :=
  List.perm_insertionSort _ _

theorem length_list_perm (msgs : List Message) :
    (length_list msgs).Perm (buildConvMaps msgs).keys :=
  List.perm_insertionSort _ _

theorem diversity_list_sorted (msgs : List Message) :
    List.Sorted (diversityRel (buildConvMaps msgs)) (diversity_list msgs) :=
  List.sorted_insertionSort _ _

theorem diversity_list_nodup (msgs : List Message) : (diversity_list msgs).Nodup :=
  ((diversity_list_perm msgs).nodup_iff).mpr (keys_nodup msgs)

theorem selectedKeys_nodup (msgs : List Message) : (selectedKeys msgs).Nodup :=
  selectLoop_nodup _ _ ((List.take_sublist 2 _).nodup (diversity_list_nodup msgs))

theorem selectedKeys_length_le (msgs : List Message) :
    (selectedKeys msgs).length ≤ 4 :=
  selectLoop_length_le _ _ (Nat.le_trans (List.length_take_le 2 _) (by omega))

theorem selectedKeys_subset (msgs : List Message) :
    ∀ x ∈ selectedKeys msgs, x ∈ (buildConvMaps msgs).keys := by
  intro x hx
  rcases selectLoop_subset _ _ _ hx with h | h
  · exact (diversity_list_perm msgs).subset ((List.take_sublist 2 _).subset h)
  · exact (length_list_perm msgs).subset h

theorem selectedKeys_complete (msgs : List Message)
    (hlen : (selectedKeys msgs).length < 4) :
    ∀ k ∈ (buildConvMaps msgs).keys, k ∈ selectedKeys msgs := by
  intro k hk
  exact selectLoop_mem_of_length_lt _ _ hlen k ((length_list_perm msgs).mem_iff.mpr hk)

theorem hot_conversation_keys_eq (msgs : List Message) :
    hot_conversation_keys msgs = selectedKeys msgs := by
  unfold hot_conversation_keys
  by_cases h4 : (selectedKeys msgs).length < 4
  · rw [if_pos h4]
    have hsub : (buildConvMaps msgs).keys ⊆ selectedKeys msgs :=
      fun k hk => selectedKeys_complete msgs h4 k hk
    have hle : (diversity_list msgs).length ≤ (selectedKeys msgs).length := by
      rw [(diversity_list_perm msgs).length_eq]
      exact (List.subperm_of_subset (keys_nodup msgs) hsub).length_le
    rw [List.drop_eq_nil_of_le hle]
    simp
  · rw [if_neg h4]

theorem keys_length_eq_num_conversations (msgs : List Message) :
    (buildConvMaps msgs).keys.length =
      ((msgs.filter (·.sentByHuman)).map msgKey).dedup.length := by
  apply List.Perm.length_eq
  rw [List.perm_ext_iff_of_nodup (keys_nodup msgs) (List.nodup_dedup _)]
  intro k
  rw [List.mem_dedup, List.mem_map, mem_keys_buildConvMaps]
  constructor
  · rintro ⟨m, hm, hhm, hk⟩
    exact ⟨m, List.mem_filter.mpr ⟨hm, hhm⟩, hk⟩
  · rintro ⟨m, hm, hk⟩
    obtain ⟨hm', hhm⟩ := List.mem_filter.mp hm
    exact ⟨m, hm', hhm, hk⟩

theorem humanKeyMatch_eq_previewFilter (k : ConvKey) (m : Message)
    (hhm : m.sentByHuman = true) : humanKeyMatch k m = previewFilter k m := by
  rw [humanKeyMatch, hhm, Bool.true_and]
  rfl

/-! ### The claims -/

/-- Claim C3: for every input, `gather_hot_conversations` returns at most
4 conversations — one teaser per selected key — and the selected
(stream, topic) keys contain no duplicates. -/
theorem claim_C3 (msgs : List Message) :
    (gather_hot_conversations msgs).length ≤ 4 ∧
    (hot_conversation_keys msgs).Nodup ∧
    gather_hot_conversations msgs =
      (hot_conversation_keys msgs).map (makeTeaser msgs (buildConvMaps msgs)) := by
  refine ⟨?_, ?_, rfl⟩
  · rw [gather_hot_conversations, List.length_map, hot_conversation_keys_eq]
    exact selectedKeys_length_le msgs
  · rw [hot_conversation_keys_eq]
    exact selectedKeys_nodup msgs

/-- Claim C4: if the human-sent messages form fewer than 4 distinct
(stream, topic) conversations, every one of those conversations appears in
the selected list. -/
theorem claim_C4 (msgs : List Message)
    (hfew : ((msgs.filter (·.sentByHuman)).map msgKey).dedup.length < 4) :
    ∀ k : ConvKey, (∃ m, m ∈ msgs ∧ m.sentByHuman = true ∧ msgKey m = k) →
      k ∈ hot_conversation_keys msgs := by
  intro k hk
  rw [← keys_length_eq_num_conversations] at hfew
  rw [hot_conversation_keys_eq]
  have hmem : k ∈ (buildConvMaps msgs).keys := (mem_keys_buildConvMaps msgs k).mpr hk
  have hlen : (selectedKeys msgs).length < 4 := by
    have hle :=
      (List.subperm_of_subset (selectedKeys_nodup msgs) (selectedKeys_subset msgs)).length_le
    omega
  exact selectedKeys_complete msgs hlen k hmem

/-- Claim C5: on the worked example — A (5 messages, 3 senders),
B (3 messages, 1 sender), C (2 messages, 2 senders), D (1 message,
1 sender), first encountered in the order A, B, C, D — the diversity
order is [A, C, B, D], the length order is [A, B, C, D], and the selected
conversations are exactly [A, C, B, D] in that order. -/
theorem claim_C5 :
    diversity_list ex5 = [(1, "tA"), (3, "tC"), (2, "tB"), (4, "tD")] ∧
    length_list ex5 = [(1, "tA"), (2, "tB"), (3, "tC"), (4, "tD")] ∧
    hot_conversation_keys ex5 = [(1, "tA"), (3, "tC"), (2, "tB"), (4, "tD")] := by
  refine ⟨?_, ?_, ?_⟩ <;> decide

/-- Claim C6: whenever the human-sent messages form at least 2 distinct
conversations, the selected list starts with two distinct conversations
that are top-2 by distinct-sender count: the first has at least as many
distinct senders as the second, and every other conversation has at most
as many distinct senders as the second. -/
theorem claim_C6 (msgs : List Message)
    (h2 : 2 ≤ ((msgs.filter (·.sentByHuman)).map msgKey).dedup.length) :
    ∃ a b t, hot_conversation_keys msgs = a :: b :: t ∧
      a ∈ (buildConvMaps msgs).keys ∧ b ∈ (buildConvMaps msgs).keys ∧ a ≠ b ∧
      ((buildConvMaps msgs).conversation_diversity b).length ≤
        ((buildConvMaps msgs).conversation_diversity a).length ∧
      ∀ k ∈ (buildConvMaps msgs).keys, k ≠ a → k ≠ b →
        ((buildConvMaps msgs).conversation_diversity k).length ≤
          ((buildConvMaps msgs).conversation_diversity b).length := by
  rw [← keys_length_eq_num_conversations] at h2
  have hdl : 2 ≤ (diversity_list msgs).length := by
    rw [(diversity_list_perm msgs).length_eq]
    exact h2
  obtain ⟨a, b, rest, hd⟩ : ∃ a b rest, diversity_list msgs = a :: b :: rest := by
    cases hl : diversity_list msgs with
    | nil =>
      rw [hl] at hdl
      simp at hdl
    | cons a l =>
      cases l with
      | nil =>
        rw [hl] at hdl
        simp at hdl
      | cons b rest => exact ⟨a, b, rest, rfl⟩
  obtain ⟨t, ht⟩ := selectLoop_append (length_list msgs) ((diversity_list msgs).take 2)
  have htake : (diversity_list msgs).take 2 = [a, b] := by
    rw [hd]
    rfl
  have hkeys : hot_conversation_keys msgs = a :: b :: t := by
    rw [hot_conversation_keys_eq, selectedKeys, ht, htake]
    rfl
  have hsorted := diversity_list_sorted msgs
  rw [hd, List.sorted_cons, List.sorted_cons] at hsorted
  obtain ⟨ha, hb, _⟩ := hsorted
  have hnd := diversity_list_nodup msgs
  rw [hd, List.nodup_cons] at hnd
  refine ⟨a, b, t, hkeys, ?_, ?_, ?_, ?_, ?_⟩
  · exact (diversity_list_perm msgs).subset (by rw [hd]; exact List.mem_cons_self a _)
  · exact (diversity_list_perm msgs).subset
      (by rw [hd]; exact List.mem_cons_of_mem a (List.mem_cons_self b _))
  · intro hab
    exact hnd.1 (hab ▸ List.mem_cons_self b rest)
  · exact ha b (List.mem_cons_self b rest)
  · intro k hk hka hkb
    have hkd : k ∈ diversity_list msgs := (diversity_list_perm msgs).mem_iff.mpr hk
    rw [hd] at hkd
    rcases List.mem_cons.mp hkd with rfl | hkd
    · exact absurd rfl hka
    rcases List.mem_cons.mp hkd with rfl | hkd
    · exact absurd rfl hkb
    exact hb k hkd

/-- Claim C7: non-human messages are excluded from the grouping of
`gather_hot_conversations` — the conversation maps built from the input
equal the maps built from its human-sent messages only — and every
selected conversation contains at least one human-sent message. -/
theorem claim_C7 (msgs : List Message) (k : ConvKey)
    (hk : k ∈ hot_conversation_keys msgs) :
    buildConvMaps msgs = buildConvMaps (msgs.filter (·.sentByHuman)) ∧
    ∃ m, m ∈ msgs ∧ m.sentByHuman = true ∧ msgKey m = k := by
  refine ⟨buildConvMaps_filter_human msgs, ?_⟩
  rw [hot_conversation_keys_eq] at hk
  exact (mem_keys_buildConvMaps msgs k).mp (selectedKeys_subset msgs k hk)

/-- Claim C8: on an empty input, and more generally on any input with no
human-sent message, `gather_hot_conversations` returns the empty list. -/
theorem claim_C8 :
    gather_hot_conversations [] = [] ∧
    ∀ msgs : List Message, (∀ m ∈ msgs, m.sentByHuman = false) →
      gather_hot_conversations msgs = [] := by
  have main : ∀ msgs : List Message, (∀ m ∈ msgs, m.sentByHuman = false) →
      gather_hot_conversations msgs = [] := by
    intro msgs h
    have hfilt : msgs.filter (·.sentByHuman) = [] := by
      rw [List.filter_eq_nil_iff]
      intro m hm
      simp [h m hm]
    have hmaps : buildConvMaps msgs = emptyConvMaps := by
      rw [buildConvMaps_filter_human, hfilt]
      rfl
    have hkeys : hot_conversation_keys msgs = [] := by
      rw [hot_conversation_keys_eq]
      unfold selectedKeys diversity_list length_list
      rw [hmaps]
      rfl
    rw [gather_hot_conversations, hkeys]
    rfl
  exact ⟨main [] (by intro m hm; cases hm), main⟩

/-- Claim C8 witness: an input of two automated messages yields the
empty list. -/
theorem claim_C8_witness : gather_hot_conversations exBots = [] :=
  claim_C8.2 exBots (by decide)

/-- Claim C9: at every point of the grouping phase — that is, after
processing any prefix of the input — each conversation's message count is
at least the size of its distinct-sender set; in particular this holds for
every selected conversation on the full input. -/
theorem claim_C9 (msgs : List Message) :
    (∀ (n : Nat) (k : ConvKey),
        ((buildConvMaps (msgs.take n)).conversation_diversity k).length ≤
          (buildConvMaps (msgs.take n)).conversation_length k) ∧
    ∀ k ∈ hot_conversation_keys msgs,
      ((buildConvMaps msgs).conversation_diversity k).length ≤
        (buildConvMaps msgs).conversation_length k :=
  ⟨fun n k => diversity_le_length (msgs.take n) k,
   fun k _ => diversity_le_length msgs k⟩

/-- Claim C9 witness: the invariant instantiated on the worked example's
conversation A. -/
theorem claim_C9_witness :
    ((buildConvMaps ex5).conversation_diversity (1, "tA")).length ≤
      (buildConvMaps ex5).conversation_length (1, "tA") :=
  (claim_C9 ex5).2 (1, "tA") (by decide)

/-- Claim C4 witness: `ex1` has one distinct human conversation, which is
selected. -/
theorem claim_C4_witness : ((7 : Nat), "topic") ∈ hot_conversation_keys ex1 :=
  claim_C4 ex1 (by decide) (7, "topic") (by decide)

/-- Claim C6 witness: the top-2-by-diversity property on the worked
example. -/
theorem claim_C6_witness :
    ∃ a b t, hot_conversation_keys ex5 = a :: b :: t ∧
      a ∈ (buildConvMaps ex5).keys ∧ b ∈ (buildConvMaps ex5).keys ∧ a ≠ b ∧
      ((buildConvMaps ex5).conversation_diversity b).length ≤
        ((buildConvMaps ex5).conversation_diversity a).length ∧
      ∀ k ∈ (buildConvMaps ex5).keys, k ≠ a → k ≠ b →
        ((buildConvMaps ex5).conversation_diversity k).length ≤
          ((buildConvMaps ex5).conversation_diversity b).length :=
  claim_C6 ex5 (by decide)

/-- Claim C7 witness: on `ex1` the selected conversation `(7, "topic")`
owes its selection to the one human-sent message. -/
theorem claim_C7_witness :
    buildConvMaps ex1 = buildConvMaps (ex1.filter (·.sentByHuman)) ∧
    ∃ m, m ∈ ex1 ∧ m.sentByHuman = true ∧ msgKey m = ((7 : Nat), "topic") :=
  claim_C7 ex1 (7, "topic") (by decide)

/-- Claim C1 (amended): every selected conversation carries at most 2
preview messages, and its reported remainder equals its human-sent message
count minus the number of previewed messages; when every input message is
human-sent the remainder is never negative. (As originally stated the
"never negative" part is false: the preview query does not exclude
non-human messages, see the counterexample.) -/
theorem claim_C1_amended (msgs : List Message) (h : ConvKey)
    (_hmem : h ∈ hot_conversation_keys msgs) :
    gather_hot_conversations msgs =
      (hot_conversation_keys msgs).map (makeTeaser msgs (buildConvMaps msgs)) ∧
    (makeTeaser msgs (buildConvMaps msgs) h).first_few_messages.length ≤ 2 ∧
    (makeTeaser msgs (buildConvMaps msgs) h).count =
      ((buildConvMaps msgs).conversation_length h : Int) -
        ((makeTeaser msgs (buildConvMaps msgs) h).first_few_messages.length : Int) ∧
    ((∀ m ∈ msgs, m.sentByHuman = true) →
      0 ≤ (makeTeaser msgs (buildConvMaps msgs) h).count) := by
  refine ⟨rfl, List.length_take_le 2 _, rfl, ?_⟩
  intro hall
  have hcl : (buildConvMaps msgs).conversation_length h =
      (msgs.filter (previewFilter h)).length := by
    rw [conversation_length_eq_countP, List.countP_eq_length_filter]
    congr 1
    apply List.filter_congr
    intro m hm
    exact humanKeyMatch_eq_previewFilter h m (hall m hm)
  show 0 ≤ ((buildConvMaps msgs).conversation_length h : Int) -
    (((msgs.filter (previewFilter h)).take 2).length : Int)
  rw [hcl, List.length_take]
  omega

/-- Claim C1 counterexample: on a conversation with one human and two
automated messages, the preview holds 2 messages while the human count is
1, so the reported remainder is -1, refuting "never negative". -/
theorem claim_C1_counterexample :
    ∃ t ∈ gather_hot_conversations ex1, t.count < 0 := by
  decide

/-- Claim C1 witness: on the all-human worked example, conversation A has
at most 2 previews and a non-negative remainder. -/
theorem claim_C1_witness :
    (makeTeaser ex5 (buildConvMaps ex5) (1, "tA")).first_few_messages.length ≤ 2 ∧
    0 ≤ (makeTeaser ex5 (buildConvMaps ex5) (1, "tA")).count :=
  ⟨(claim_C1_amended ex5 (1, "tA") (by decide)).2.1,
   (claim_C1_amended ex5 (1, "tA") (by decide)).2.2.2 (by decide)⟩

/-- Claim C2 (amended): `enough_traffic` returns true iff the unread-PM
bucket is non-empty, or the hot-conversation bucket is non-empty, or both
the new-stream count and the new-user count are non-zero. (The original
"> 0" reading fails for negative integers, where Python truthiness is
"non-zero"; for the non-negative counts produced by the callers the two
coincide.) -/
theorem claim_C2_amended (unread_pms hot_conversations : String)
    (new_streams new_users : Int) :
    enough_traffic unread_pms hot_conversations new_streams new_users = true ↔
      (unread_pms ≠ "" ∨ hot_conversations ≠ "" ∨
        (new_streams ≠ 0 ∧ new_users ≠ 0)) := by
  unfold enough_traffic
  split_ifs with h1 h2
  · refine iff_of_true rfl ?_
    rcases Bool.or_eq_true_iff.mp h1 with h | h
    · exact Or.inl (bne_iff_ne.mp h)
    · exact Or.inr (Or.inl (bne_iff_ne.mp h))
  · refine iff_of_true rfl ?_
    obtain ⟨ha, hb⟩ := Bool.and_eq_true_iff.mp h2
    exact Or.inr (Or.inr ⟨bne_iff_ne.mp ha, bne_iff_ne.mp hb⟩)
  · refine iff_of_false (by simp) ?_
    simp only [Bool.or_eq_true, bne_iff_ne, not_or, not_ne_iff] at h1
    simp only [Bool.and_eq_true, bne_iff_ne] at h2
    rintro (h | h | h)
    · exact h h1.1
    · exact h h1.2
    · exact h2 h

/-- Claim C2 counterexample: with empty buckets and both counts -1,
`enough_traffic` returns true (Python truthiness: non-zero), but the
claimed "> 0" condition is false, refuting the stated biconditional. -/
theorem claim_C2_counterexample :
    ¬(enough_traffic emptyBucket emptyBucket (-1) (-1) = true ↔
      (emptyBucket ≠ "" ∨ emptyBucket ≠ "" ∨
        ((-1 : Int) > 0 ∧ (-1 : Int) > 0))) := by
  decide

/-- Claim C10: for a user who is not long-term idle, `build_digest`
returns a context whose `remaining_unread_pms_count` is
`min(0, number of unread PMs - 4)` — in particular it is never positive,
even when there are more than 4 unread PMs. -/
theorem claim_C10 (user : UserDigestProfile) (all_messages : List Message)
    (homeViewStreamIds : List Nat) (new_streams_count : Nat)
    (new_users : List String) (hidle : user.long_term_idle = false) :
    ∃ ctx,
      build_digest user all_messages homeViewStreamIds new_streams_count new_users
        = some ctx ∧
      ctx.remaining_unread_pms_count =
        min 0 (((all_messages.filter (pmFilter user)).length : Int) - 4) ∧
      ctx.remaining_unread_pms_count ≤ 0 := by
  unfold build_digest
  rw [if_neg (by simp [hidle])]
  exact ⟨_, rfl, rfl, min_le_left 0 _⟩

/-- Claim C10 witness: a non-idle user with 6 unread PMs gets a context
whose remaining-PM count is `min(0, 6 - 4)`, hence not positive. -/
theorem claim_C10_witness :
    ∃ ctx, build_digest digestUser pmMessages [] 0 [] = some ctx ∧
      ctx.remaining_unread_pms_count =
        min 0 (((pmMessages.filter (pmFilter digestUser)).length : Int) - 4) ∧
      ctx.remaining_unread_pms_count ≤ 0 :=
  claim_C10 digestUser pmMessages [] 0 [] (by decide)

end ZulipDigest
